import Mathlib

/-!
Verification development for the LLM generation orchestrator: a shallow
embedding of the caching `generate` entry point, the uncached generation
path with its lifecycle notifications, the serialized-parameters cache key,
the deserialization registry, and the single-prompt adapter, together with
theorems settling the specification's claims about them.

Sequential semantics is used for the concurrent cache lookups and writes:
lookups are evaluated in prompt order and writes in miss order, matching the
order in which the source enumerates them.
-/

/-- Generation: one candidate produced by the backend, carrying its text. -/
structure Generation where
  text : String
deriving DecidableEq, Repr

/-- GenList: the candidate list produced for one prompt. -/
abbrev GenList := List Generation

/-- LLMResult: the record the backend's batch operation returns — one
candidate list per prompt, an optional metadata map (`llmOutput`) and the
run-correlation field (`__run`, modelled as `run`). -/
structure LLMResult where
  generations : List GenList
  llmOutput : Option (List (String × String)) := none
  run : Option Nat := none
deriving DecidableEq, Repr

/-- JsLLMResult: the record `generate` returns. In the source the cached
path builds an array whose cells start as the nullable cache-lookup results,
so each per-prompt cell is an `Option GenList` here. -/
structure JsLLMResult where
  generations : List (Option GenList)
  llmOutput : Option (List (String × String))
  run : Option Nat
deriving DecidableEq, Repr

/-- LLMEvent: lifecycle notifications emitted through the run manager
(`handleLLMStart` / `handleLLMError` / `handleLLMEnd`), tagged with the run
correlation id. -/
inductive LLMEvent where
  | start (runId : Nat) (prompts : List String)
  | llmError (runId : Nat)
  | llmEnd (runId : Nat)
deriving DecidableEq, Repr

/-- LLMConfig: the state of a `BaseLLM` instance that `generate` reads — the
identifying parameters already rendered as string entries, the type and model
discriminators, the optional cache (as a pure lookup table), the backend
`_generate` capability, and whether a callback manager is configured (with
the run id it would mint). -/
structure LLMConfig (ε : Type) where
  idEntries : List (String × String)
  llmType : String
  modelType : String := "base_llm"
  cache : Option (String → String → Option GenList)
  gen : List String → Option (List String) → Except ε LLMResult
  hasCallbacks : Bool
  runId : Nat

/-- generateUncached: the uncached path `_generateUncached`. It emits a
start event when a callback manager is configured, invokes the backend, and
on failure emits an error event and rethrows, while on success it emits an
end event, attaches the run-correlation field, and returns the output. -/
def BaseLLM.generateUncached (hasCallbacks : Bool) (runId : Nat)
    (gen : List String → Option (List String) → Except ε LLMResult)
    (prompts : List String) (stop : Option (List String)) :
    Except ε LLMResult × List LLMEvent :=
  let startEvents := if hasCallbacks then [LLMEvent.start runId prompts] else []
  match gen prompts stop with
  | .error e =>
      (.error e, startEvents ++ (if hasCallbacks then [LLMEvent.llmError runId] else []))
  | .ok output =>
      (.ok { output with run := if hasCallbacks then some runId else none },
       startEvents ++ (if hasCallbacks then [LLMEvent.llmEnd runId] else []))

/-- joinComma: the string a JavaScript array turns into inside a template
literal — its elements' string forms joined with commas. -/
def joinComma : List String → String
  | [] => ""
  | [s] => s
  | s :: rest => s ++ "," ++ joinComma rest

/-- entryStr: the string form of one `[key, value]` entry pair. -/
def entryStr (e : String × String) : String := e.1 ++ "," ++ e.2

/-- stopValueStr: the string form the `stop` value contributes to its entry —
empty for `undefined`, else the comma-join of the stop sequences. -/
def stopValueStr : Option (List String) → String
  | none => ""
  | some l => joinComma l

/-- sortStrings: default JavaScript `Array.sort`, which orders the entries by
their string forms. -/
def sortStrings (l : List String) : List String := List.insertionSort (· ≤ ·) l

/-- serialize: the entries of the record `serialize()` returns — the
identifying parameters followed by the `_type` and `_model` discriminators. -/
def BaseLLM.serialize (cfg : LLMConfig ε) : List (String × String) :=
  cfg.idEntries ++ [("_type", cfg.llmType), ("_model", cfg.modelType)]

/-- llmStringKey: the serialized-parameters cache key — the template-literal
rendering of the sorted entries of `serialize()` extended with the `stop`
entry. -/
def BaseLLM.llmStringKey (cfg : LLMConfig ε) (stop : Option (List String)) : String :=
  joinComma (sortStrings ((BaseLLM.serialize cfg ++ [("stop", stopValueStr stop)]).map entryStr))

/-- missingIndicesAux: the indices (offset by `k`) of the cells holding
`none`, in increasing order — the order the source pushes them in. -/
def missingIndicesAux : List (Option GenList) → Nat → List Nat
  | [], _ => []
  | none :: rest, k => k :: missingIndicesAux rest (k + 1)
  | some _ :: rest, k => missingIndicesAux rest (k + 1)

/-- spliceAll: the splice loop — each computed generation is written into the
result array at the original index of its prompt. -/
def spliceAll (gens : List (Option GenList)) : List (Nat × GenList) → List (Option GenList)
  | [] => gens
  | (i, g) :: rest => spliceAll (gens.set i (some g)) rest

/-- toJs: the typing coercion at `generate`'s return — a fully-populated
backend result viewed at the nullable-cell result type. -/
def toJs (r : LLMResult) : JsLLMResult :=
  ⟨r.generations.map some, r.llmOutput, r.run⟩

/-- GenTrace: the observable interactions of one `generate` call — cache
lookups performed, prompt batches sent to the uncached path, cache writes
performed, and lifecycle events emitted. -/
structure GenTrace where
  lookups : List (String × String)
  backendCalls : List (List String)
  cacheWrites : List (String × String × GenList)
  events : List LLMEvent
deriving DecidableEq, Repr

/-- emptyTrace: a trace recording no interaction at all. -/
def emptyTrace : GenTrace := ⟨[], [], [], []⟩

/-- GenError: what a `generate` call can throw — the invalid-argument error
for a non-array `prompts`, or a backend failure propagated unchanged. -/
inductive GenError (ε : Type) where
  | invalidArgument (msg : String)
  | backend (e : ε)
deriving DecidableEq

/-- PromptsInput: the dynamically-typed `prompts` argument — either an actual
array of strings or some non-array value. -/
inductive PromptsInput where
  | array (prompts : List String)
  | notArray (value : String)

/-- generate: the caching entry point. It rejects non-array input, delegates
directly to the uncached path when no cache is configured, and otherwise
looks every prompt up under the serialized-parameters key, sends exactly the
missing prompts to the uncached path, splices the computed generations back
in at their original indices while writing them to the cache, and returns a
fresh record of the merged generations and the uncached path's metadata. -/
def BaseLLM.generate (cfg : LLMConfig ε) (promptsArg : PromptsInput)
    (stop : Option (List String)) :
    Except (GenError ε) JsLLMResult × GenTrace :=
  match promptsArg with
  | .notArray _ =>
      (.error (.invalidArgument "Argument 'prompts' is expected to be a string[]"), emptyTrace)
  | .array prompts =>
    match cfg.cache with
    | none =>
        let (r, evs) := BaseLLM.generateUncached cfg.hasCallbacks cfg.runId cfg.gen prompts stop
        ((r.map toJs).mapError GenError.backend,
         { lookups := [], backendCalls := [prompts], cacheWrites := [], events := evs })
    | some cacheFn =>
        let key := BaseLLM.llmStringKey cfg stop
        let gens := prompts.map (fun p => cacheFn p key)
        let missing := missingIndicesAux gens 0
        let lookups := prompts.map (fun p => (p, key))
        if missing.isEmpty then
          (.ok { generations := gens, llmOutput := some [], run := none },
           { lookups := lookups, backendCalls := [], cacheWrites := [], events := [] })
        else
          let missPrompts := missing.map (fun i => prompts.getD i "")
          let (res, evs) :=
            BaseLLM.generateUncached cfg.hasCallbacks cfg.runId cfg.gen missPrompts stop
          match res with
          | .error e =>
              (.error (.backend e),
               { lookups := lookups, backendCalls := [missPrompts], cacheWrites := [],
                 events := evs })
          | .ok results =>
              let pairs := missing.zip results.generations
              (.ok { generations := spliceAll gens pairs,
                     llmOutput := some (results.llmOutput.getD []), run := none },
               { lookups := lookups, backendCalls := [missPrompts],
                 cacheWrites := pairs.map (fun p => (prompts.getD p.1 "", key, p.2)),
                 events := evs })

/-- jsTruthy: JavaScript truthiness of an optional string — `undefined` and
the empty string are falsy. -/
def jsTruthy : Option String → Bool
  | none => false
  | some "" => false
  | some _ => true

/-- jsStr: JavaScript string interpolation of an optional string. -/
def jsStr : Option String → String
  | none => "undefined"
  | some s => s

/-- DeserializeError: the deserialization-time failures — a model-family
discriminator that does not match, or a type discriminator absent from the
registration table. -/
inductive DeserializeError where
  | modelMismatch (msg : String)
  | unknownModelType (msg : String)
deriving DecidableEq, Repr

/-- SerializedRecord: the json-like record `deserialize` receives — the two
discriminators (possibly absent at runtime) and the remaining fields. -/
structure SerializedRecord where
  typeD : Option String
  modelD : Option String
  rest : List (String × String)

/-- ConstructedLLM: a successfully deserialized instance — the registry class
that was constructed and the parameters passed to its constructor. -/
structure ConstructedLLM where
  clsType : String
  params : List (String × String)
deriving DecidableEq, Repr

/-- llmRegistry: the registration table of type discriminators. -/
def llmRegistry : List String := ["openai"]

/-- deserialize: rejects a truthy model discriminator other than `base_llm`,
then looks the type discriminator up in the registration table, failing on an
unknown one, and only otherwise constructs an instance. -/
def BaseLLM.deserialize (data : SerializedRecord) : Except DeserializeError ConstructedLLM :=
  if jsTruthy data.modelD ∧ data.modelD ≠ some "base_llm" then
    .error (.modelMismatch ("Cannot load LLM with model " ++ jsStr data.modelD))
  else
    match data.typeD with
    | some t =>
        if t ∈ llmRegistry then .ok ⟨t, data.rest⟩
        else .error (.unknownModelType ("Cannot load  LLM with type " ++ t))
    | none => .error (.unknownModelType "Cannot load  LLM with type undefined")

/-- callLoop: the accumulation loop of the single-prompt adapter — one
single-candidate entry pushed per prompt, in prompt order. -/
def LLM.callLoop (call : String → Option (List String) → String) :
    List String → Option (List String) → List GenList
  | [], _ => []
  | p :: rest, stop => [{ text := call p stop }] :: LLM.callLoop call rest stop

/-- generateViaCall: the single-prompt adapter `LLM._generate` — it runs the
single-prompt `_call` capability once per prompt in order and wraps each
returned string into a one-element candidate list. -/
def LLM.generateViaCall (call : String → Option (List String) → String)
    (prompts : List String) (stop : Option (List String)) : LLMResult :=
  { generations := LLM.callLoop call prompts stop }

/-- isTerminal: whether a lifecycle event is a terminal one (error or end). -/
def LLMEvent.isTerminal : LLMEvent → Bool
  | .start _ _ => false
  | .llmError _ => true
  | .llmEnd _ => true

/-- exampleCfg: a concrete backend configuration used to evaluate the
definitions on explicit inputs. -/
def exampleCfg : LLMConfig Unit :=
  { idEntries := [("temperature", "0.7")], llmType := "test", cache := none,
    gen := fun ps _ => .ok { generations := ps.map fun p => [{ text := p ++ "!" }] },
    hasCallbacks := true, runId := 7 }

/-- fillHoles: reference description of the merge — walk the lookup cells in
order, keep hits, and fill each `none` hole with the next computed result. -/
def fillHoles : List (Option GenList) → List GenList → List (Option GenList)
  | [], _ => []
  | some g :: rest, cs => some g :: fillHoles rest cs
  | none :: rest, c :: cs => some c :: fillHoles rest cs
  | none :: rest, [] => none :: fillHoles rest []

theorem fillHoles_nil_right : ∀ l : List (Option GenList), fillHoles l [] = l
  | [] => rfl
  | some g :: rest => by simp [fillHoles, fillHoles_nil_right rest]
  | none :: rest => by simp [fillHoles, fillHoles_nil_right rest]

theorem missingIndicesAux_succ (l : List (Option GenList)) :
    ∀ k, missingIndicesAux l (k + 1) = (missingIndicesAux l k).map (· + 1) := by
  induction l with
  | nil => intro k; rfl
  | cons x rest ih =>
      intro k
      cases x with
      | none => simp [missingIndicesAux, ih (k + 1)]
      | some g => simp [missingIndicesAux, ih (k + 1)]

theorem spliceAll_shift (x : Option GenList) :
    ∀ (pairs : List (Nat × GenList)) (gens : List (Option GenList)),
      spliceAll (x :: gens) (pairs.map (fun p => (p.1 + 1, p.2))) = x :: spliceAll gens pairs := by
  intro pairs
  induction pairs with
  | nil => intro gens; rfl
  | cons p rest ih =>
      intro gens
      obtain ⟨i, g⟩ := p
      simp [spliceAll, List.set, ih]

theorem spliceAll_zip_missing_eq_fillHoles :
    ∀ (gens : List (Option GenList)) (res : List GenList),
      spliceAll gens ((missingIndicesAux gens 0).zip res) = fillHoles gens res := by
  intro gens
  induction gens with
  | nil => intro res; simp [missingIndicesAux, spliceAll, fillHoles]
  | cons x rest ih =>
      intro res
      cases x with
      | some g =>
          have h1 : missingIndicesAux (some g :: rest) 0 = (missingIndicesAux rest 0).map (· + 1) := by
            simpa [missingIndicesAux] using missingIndicesAux_succ rest 0
          rw [h1, List.zip_map_left]
          have h2 : List.map (Prod.map (· + 1) id) ((missingIndicesAux rest 0).zip res)
              = ((missingIndicesAux rest 0).zip res).map (fun p => (p.1 + 1, p.2)) := by
            simp [Prod.map]
          rw [h2, spliceAll_shift, ih res, fillHoles]
      | none =>
          cases res with
          | nil =>
              simp [fillHoles, fillHoles_nil_right, spliceAll]
          | cons c cs =>
              have h1 : missingIndicesAux (none :: rest) 0
                  = 0 :: (missingIndicesAux rest 0).map (· + 1) := by
                simpa [missingIndicesAux] using missingIndicesAux_succ rest 0
              rw [h1]
              show spliceAll ((none :: rest).set 0 (some c))
                  (((missingIndicesAux rest 0).map (· + 1)).zip cs) = fillHoles (none :: rest) (c :: cs)
              rw [List.zip_map_left]
              have h2 : List.map (Prod.map (· + 1) id) ((missingIndicesAux rest 0).zip cs)
                  = ((missingIndicesAux rest 0).zip cs).map (fun p => (p.1 + 1, p.2)) := by
                simp [Prod.map]
              rw [h2]
              show spliceAll (some c :: rest) _ = _
              rw [spliceAll_shift, ih cs, fillHoles]

theorem missingIndicesAux_map_getD (look : String → Option GenList) :
    ∀ prompts : List String,
      (missingIndicesAux (prompts.map look) 0).map (fun i => prompts.getD i "")
        = prompts.filter (fun p => (look p).isNone) := by
  intro prompts
  induction prompts with
  | nil => rfl
  | cons p rest ih =>
      have hshift : ∀ m : List Nat,
          (m.map (· + 1)).map (fun i => (p :: rest).getD i "")
            = m.map (fun i => rest.getD i "") := by
        intro m
        rw [List.map_map]
        apply List.map_congr_left
        intro i _
        simp [Function.comp, List.getD_cons_succ]
      cases hl : look p with
      | none =>
          have h1 : missingIndicesAux ((p :: rest).map look) 0
              = 0 :: (missingIndicesAux (rest.map look) 0).map (· + 1) := by
            simpa [missingIndicesAux, hl] using missingIndicesAux_succ (rest.map look) 0
          rw [h1, List.map_cons, hshift, ih, List.getD_cons_zero,
            List.filter_cons_of_pos (by simp [hl])]
      | some g =>
          have h1 : missingIndicesAux ((p :: rest).map look) 0
              = (missingIndicesAux (rest.map look) 0).map (· + 1) := by
            simpa [missingIndicesAux, hl] using missingIndicesAux_succ (rest.map look) 0
          rw [h1, hshift, ih, List.filter_cons_of_neg (by simp [hl])]

theorem missingIndicesAux_eq_nil_iff :
    ∀ (l : List (Option GenList)) (k : Nat),
      missingIndicesAux l k = [] ↔ ∀ x ∈ l, x.isSome := by
  intro l
  induction l with
  | nil => intro k; simp [missingIndicesAux]
  | cons x rest ih =>
      intro k
      cases x with
      | none => simp [missingIndicesAux]
      | some g => simp [missingIndicesAux, ih (k + 1)]

theorem fillHoles_get_of_some :
    ∀ (gens : List (Option GenList)) (res : List GenList) (i : Nat) (g : GenList),
      gens[i]? = some (some g) → (fillHoles gens res)[i]? = some (some g) := by
  intro gens
  induction gens with
  | nil => intro res i g h; simp at h
  | cons x rest ih =>
      intro res i g h
      cases x with
      | some g0 =>
          cases i with
          | zero => simpa [fillHoles] using h
          | succ j => simpa [fillHoles] using ih res j g (by simpa using h)
      | none =>
          cases res with
          | nil =>
              cases i with
              | zero => simp at h
              | succ j => simpa [fillHoles] using ih [] j g (by simpa using h)
          | cons c cs =>
              cases i with
              | zero => simp at h
              | succ j => simpa [fillHoles] using ih cs j g (by simpa using h)

theorem fillHoles_mem_zip :
    ∀ (gens : List (Option GenList)) (res : List GenList) (pr : Nat × GenList),
      pr ∈ (missingIndicesAux gens 0).zip res →
      (fillHoles gens res)[pr.1]? = some (some pr.2) := by
  intro gens
  induction gens with
  | nil => intro res pr h; simp [missingIndicesAux] at h
  | cons x rest ih =>
      intro res pr h
      cases x with
      | some g =>
          have h1 : missingIndicesAux (some g :: rest) 0
              = (missingIndicesAux rest 0).map (· + 1) := by
            simpa [missingIndicesAux] using missingIndicesAux_succ rest 0
          rw [h1, List.zip_map_left] at h
          obtain ⟨q, hq, rfl⟩ := List.mem_map.mp h
          simpa [fillHoles, Prod.map] using ih res q hq
      | none =>
          cases res with
          | nil => simp at h
          | cons c cs =>
              have h1 : missingIndicesAux (none :: rest) 0
                  = 0 :: (missingIndicesAux rest 0).map (· + 1) := by
                simpa [missingIndicesAux] using missingIndicesAux_succ rest 0
              rw [h1] at h
              rcases List.mem_cons.mp (by simpa [List.zip_cons_cons] using h) with heq | htail
              · subst heq; simp [fillHoles]
              · rw [List.zip_map_left] at htail
                obtain ⟨q, hq, rfl⟩ := List.mem_map.mp htail
                simpa [fillHoles, Prod.map] using ih cs q hq

theorem generate_cached_ok_eq {ε : Type} (cfg : LLMConfig ε) (cacheFn : String → String → Option GenList)
    (prompts : List String) (stop : Option (List String)) (results : LLMResult)
    (hc : cfg.cache = some cacheFn)
    (hne : missingIndicesAux (prompts.map fun p => cacheFn p (BaseLLM.llmStringKey cfg stop)) 0 ≠ [])
    (hok : cfg.gen
        ((missingIndicesAux (prompts.map fun p => cacheFn p (BaseLLM.llmStringKey cfg stop)) 0).map
          fun i => prompts.getD i "") stop = .ok results) :
    BaseLLM.generate cfg (.array prompts) stop =
      (.ok { generations :=
               spliceAll (prompts.map fun p => cacheFn p (BaseLLM.llmStringKey cfg stop))
                 ((missingIndicesAux (prompts.map fun p => cacheFn p (BaseLLM.llmStringKey cfg stop)) 0).zip
                   results.generations),
             llmOutput := some (results.llmOutput.getD []), run := none },
       { lookups := prompts.map fun p => (p, BaseLLM.llmStringKey cfg stop),
         backendCalls := [(missingIndicesAux (prompts.map fun p => cacheFn p (BaseLLM.llmStringKey cfg stop)) 0).map
             fun i => prompts.getD i ""],
         cacheWrites := ((missingIndicesAux (prompts.map fun p => cacheFn p (BaseLLM.llmStringKey cfg stop)) 0).zip
             results.generations).map
           fun pr => (prompts.getD pr.1 "", BaseLLM.llmStringKey cfg stop, pr.2),
         events := if cfg.hasCallbacks then
             [LLMEvent.start cfg.runId ((missingIndicesAux (prompts.map fun p => cacheFn p (BaseLLM.llmStringKey cfg stop)) 0).map fun i => prompts.getD i ""),
              LLMEvent.llmEnd cfg.runId]
           else [] }) := by
  have hemp : (missingIndicesAux (prompts.map fun p => cacheFn p (BaseLLM.llmStringKey cfg stop)) 0).isEmpty = false := by
    simpa [List.isEmpty_iff] using hne
  have hok' : cfg.gen
      ((missingIndicesAux (prompts.map fun p => cacheFn p (BaseLLM.llmStringKey cfg stop)) 0).map
        fun i => (prompts[i]?).getD "") stop = .ok results := by
    simpa using hok
  simp [BaseLLM.generate, BaseLLM.generateUncached, hc, hemp, hok']
  cases cfg.hasCallbacks <;> simp

theorem fillHoles_length :
    ∀ (gens : List (Option GenList)) (res : List GenList),
      (fillHoles gens res).length = gens.length := by
  intro gens
  induction gens with
  | nil => intro res; rfl
  | cons x rest ih =>
      intro res
      cases x with
      | some g => simp [fillHoles, ih]
      | none => cases res <;> simp [fillHoles, ih]

theorem callLoop_length (call : String → Option (List String) → String) :
    ∀ (prompts : List String) (stop : Option (List String)),
      (LLM.callLoop call prompts stop).length = prompts.length := by
  intro prompts
  induction prompts with
  | nil => intro stop; rfl
  | cons p rest ih => intro stop; simp [LLM.callLoop, ih]

theorem callLoop_get (call : String → Option (List String) → String) :
    ∀ (prompts : List String) (stop : Option (List String)) (i : Nat), i < prompts.length →
      (LLM.callLoop call prompts stop)[i]? = some [{ text := call (prompts.getD i "") stop }] := by
  intro prompts
  induction prompts with
  | nil => intro stop i h; simp at h
  | cons p rest ih =>
      intro stop i h
      cases i with
      | zero => simp [LLM.callLoop]
      | succ j =>
          have hj : j < rest.length := by simpa using h
          simpa [LLM.callLoop, List.getD_cons_succ] using ih stop j hj

/-- C3: with caching enabled and every prompt a cache hit under the current
key, `generate` returns exactly the cached results in input order with an
empty metadata map, performing only the lookups — the uncached path (and
hence the backend) is never invoked and no event is emitted. -/
theorem generate_all_hits_returns_cached (cfg : LLMConfig ε)
    (cacheFn : String → String → Option GenList)
    (prompts : List String) (stop : Option (List String))
    (hc : cfg.cache = some cacheFn)
    (hall : ∀ p ∈ prompts, (cacheFn p (BaseLLM.llmStringKey cfg stop)).isSome) :
    BaseLLM.generate cfg (.array prompts) stop =
      (.ok { generations := prompts.map fun p => cacheFn p (BaseLLM.llmStringKey cfg stop),
             llmOutput := some [], run := none },
       { lookups := prompts.map fun p => (p, BaseLLM.llmStringKey cfg stop),
         backendCalls := [], cacheWrites := [], events := [] }) := by
  have hnil : missingIndicesAux (prompts.map fun p => cacheFn p (BaseLLM.llmStringKey cfg stop)) 0
      = [] := by
    rw [missingIndicesAux_eq_nil_iff]
    intro x hx
    obtain ⟨p, hp, rfl⟩ := List.mem_map.mp hx
    exact hall p hp
  simp [BaseLLM.generate, hc, hnil]

/-- C3 witness: a concrete two-prompt batch fully covered by the cache. -/
theorem generate_all_hits_returns_cached_witness :
    BaseLLM.generate
        { exampleCfg with cache := some fun p _ => some [{ text := p }] }
        (.array ["a", "b"]) none =
      (.ok { generations := [some [{ text := "a" }], some [{ text := "b" }]],
             llmOutput := some [], run := none },
       { lookups :=
           [("a", BaseLLM.llmStringKey { exampleCfg with cache := some fun p _ => some [{ text := p }] } none),
            ("b", BaseLLM.llmStringKey { exampleCfg with cache := some fun p _ => some [{ text := p }] } none)],
         backendCalls := [], cacheWrites := [], events := [] }) := by
  simpa using generate_all_hits_returns_cached
    { exampleCfg with cache := some fun p _ => some [{ text := p }] }
    (fun p _ => some [{ text := p }]) ["a", "b"] none rfl (by intro p hp; rfl)

/-- C5: when the backend fails, the uncached path emits an error event
correlated to the run (when a run handle exists) and then propagates the
original failure itself, unchanged: the returned value is exactly the
backend's error, the backend is not re-invoked, and no end event fires. -/
theorem generateUncached_error_event_then_propagate {ε : Type} (hasCallbacks : Bool)
    (runId : Nat) (gen : List String → Option (List String) → Except ε LLMResult)
    (prompts : List String) (stop : Option (List String)) (e : ε)
    (herr : gen prompts stop = .error e) :
    BaseLLM.generateUncached hasCallbacks runId gen prompts stop =
      (.error e,
       if hasCallbacks then [LLMEvent.start runId prompts, LLMEvent.llmError runId] else []) := by
  cases hasCallbacks <;> simp [BaseLLM.generateUncached, herr]

/-- C5 witness: a concrete failing backend, with and without a run handle the
statement instantiates at the callback-present case. -/
theorem generateUncached_error_event_then_propagate_witness :
    BaseLLM.generateUncached true 7 (fun _ _ => (.error 42 : Except Nat LLMResult)) ["p"] none =
      (.error 42, [LLMEvent.start 7 ["p"], LLMEvent.llmError 7]) :=
  generateUncached_error_event_then_propagate true 7 _ ["p"] none 42 rfl

/-- C7: a non-array `prompts` argument makes `generate` fail with the
invalid-argument error, with a trace recording no cache lookup, no cache
write, no backend invocation and no event. -/
theorem generate_notArray_invalidArgument (cfg : LLMConfig ε) (v : String)
    (stop : Option (List String)) :
    BaseLLM.generate cfg (.notArray v) stop =
      (.error (.invalidArgument "Argument 'prompts' is expected to be a string[]"),
       { lookups := [], backendCalls := [], cacheWrites := [], events := [] }) := rfl

/-- C9: the single-prompt adapter produces exactly one entry per input
prompt, in input order, each a one-element candidate list wrapping the string
the single-prompt operation returns for that prompt. -/
theorem llm_generate_one_entry_per_prompt (call : String → Option (List String) → String)
    (prompts : List String) (stop : Option (List String)) :
    (LLM.generateViaCall call prompts stop).generations.length = prompts.length
    ∧ ∀ i, i < prompts.length →
        (LLM.generateViaCall call prompts stop).generations[i]?
          = some [{ text := call (prompts.getD i "") stop }] :=
  ⟨callLoop_length call prompts stop, fun i hi => callLoop_get call prompts stop i hi⟩

/-- C9 witness: the adapter evaluated on a concrete two-prompt batch. -/
theorem llm_generate_one_entry_per_prompt_witness :
    (LLM.generateViaCall (fun p _ => p ++ "?") ["a", "b"] none).generations[1]?
      = some [{ text := "b?" }] :=
  (llm_generate_one_entry_per_prompt (fun p _ => p ++ "?") ["a", "b"] none).2 1 (by decide)

/-- C6: in every uncached-path invocation the start notification precedes
any terminal notification, exactly one terminal event fires when a run
handle exists (none when it does not), error and end never both fire, and
the terminal kind matches the outcome: error exactly when the failure is
propagated, end exactly when the result is returned. -/
theorem generateUncached_terminal_discipline {ε : Type} (hasCallbacks : Bool) (runId : Nat)
    (gen : List String → Option (List String) → Except ε LLMResult)
    (prompts : List String) (stop : Option (List String)) :
    ((BaseLLM.generateUncached hasCallbacks runId gen prompts stop).2.countP
        (fun ev => ev.isTerminal) = if hasCallbacks then 1 else 0)
    ∧ (∀ (k : Nat) (ev : LLMEvent),
        (BaseLLM.generateUncached hasCallbacks runId gen prompts stop).2[k]? = some ev →
        ev.isTerminal = true →
        ∃ m, m < k ∧ (BaseLLM.generateUncached hasCallbacks runId gen prompts stop).2[m]?
            = some (LLMEvent.start runId prompts))
    ∧ ¬ (LLMEvent.llmError runId ∈ (BaseLLM.generateUncached hasCallbacks runId gen prompts stop).2
          ∧ LLMEvent.llmEnd runId ∈ (BaseLLM.generateUncached hasCallbacks runId gen prompts stop).2)
    ∧ (LLMEvent.llmError runId ∈ (BaseLLM.generateUncached hasCallbacks runId gen prompts stop).2
        ↔ hasCallbacks = true
          ∧ ∃ er, (BaseLLM.generateUncached hasCallbacks runId gen prompts stop).1 = .error er)
    ∧ (LLMEvent.llmEnd runId ∈ (BaseLLM.generateUncached hasCallbacks runId gen prompts stop).2
        ↔ hasCallbacks = true
          ∧ ∃ r, (BaseLLM.generateUncached hasCallbacks runId gen prompts stop).1 = .ok r) := by
  cases hasCallbacks with
  | false =>
      cases hres : gen prompts stop with
      | error e =>
          refine ⟨by simp [BaseLLM.generateUncached, hres], ?_, ?_, ?_, ?_⟩ <;>
            simp [BaseLLM.generateUncached, hres]
      | ok r =>
          refine ⟨by simp [BaseLLM.generateUncached, hres], ?_, ?_, ?_, ?_⟩ <;>
            simp [BaseLLM.generateUncached, hres]
  | true =>
      cases hres : gen prompts stop with
      | error e =>
          refine ⟨by simp [BaseLLM.generateUncached, hres, LLMEvent.isTerminal], ?_, ?_, ?_, ?_⟩
          · intro k ev hk ht
            cases k with
            | zero =>
                simp [BaseLLM.generateUncached, hres] at hk
                subst hk
                simp [LLMEvent.isTerminal] at ht
            | succ k1 =>
                cases k1 with
                | zero => exact ⟨0, by omega, by simp [BaseLLM.generateUncached, hres]⟩
                | succ n => simp [BaseLLM.generateUncached, hres] at hk
          · simp [BaseLLM.generateUncached, hres]
          · simp [BaseLLM.generateUncached, hres]
          · simp [BaseLLM.generateUncached, hres]
      | ok r =>
          refine ⟨by simp [BaseLLM.generateUncached, hres, LLMEvent.isTerminal], ?_, ?_, ?_, ?_⟩
          · intro k ev hk ht
            cases k with
            | zero =>
                simp [BaseLLM.generateUncached, hres] at hk
                subst hk
                simp [LLMEvent.isTerminal] at ht
            | succ k1 =>
                cases k1 with
                | zero => exact ⟨0, by omega, by simp [BaseLLM.generateUncached, hres]⟩
                | succ n => simp [BaseLLM.generateUncached, hres] at hk
          · simp [BaseLLM.generateUncached, hres]
          · simp [BaseLLM.generateUncached, hres]
          · simp [BaseLLM.generateUncached, hres]

/-- C6 witness: the discipline instantiated on a concrete succeeding run —
exactly one terminal event is counted. -/
theorem generateUncached_terminal_discipline_witness :
    (BaseLLM.generateUncached true 3 exampleCfg.gen ["q"] none).2.countP
        (fun ev => ev.isTerminal) = 1 :=
  (generateUncached_terminal_discipline true 3 exampleCfg.gen ["q"] none).1

/-- C1: with caching enabled and a batch mixing hits and misses, the uncached
path is invoked with exactly the miss-subset of prompts in their original
relative order, and the returned sequence keeps every hit result unchanged at
its original index while each computed result is spliced in at the original
index of its prompt. -/
theorem generate_partial_hits_merge (cfg : LLMConfig ε)
    (cacheFn : String → String → Option GenList)
    (prompts : List String) (stop : Option (List String)) (results : LLMResult)
    (hc : cfg.cache = some cacheFn)
    (hmiss : ∃ p ∈ prompts, cacheFn p (BaseLLM.llmStringKey cfg stop) = none)
    (hok : cfg.gen (prompts.filter fun p => (cacheFn p (BaseLLM.llmStringKey cfg stop)).isNone)
        stop = .ok results)
    (hlen : results.generations.length
        = (prompts.filter fun p => (cacheFn p (BaseLLM.llmStringKey cfg stop)).isNone).length) :
    (BaseLLM.generate cfg (.array prompts) stop).2.backendCalls
        = [prompts.filter fun p => (cacheFn p (BaseLLM.llmStringKey cfg stop)).isNone]
    ∧ ∃ r, (BaseLLM.generate cfg (.array prompts) stop).1 = .ok r
        ∧ r.generations.length = prompts.length
        ∧ (∀ (i : Nat) (g : GenList), i < prompts.length →
            cacheFn (prompts.getD i "") (BaseLLM.llmStringKey cfg stop) = some g →
            r.generations[i]? = some (some g))
        ∧ (∀ pr ∈ (missingIndicesAux
              (prompts.map fun p => cacheFn p (BaseLLM.llmStringKey cfg stop)) 0).zip
              results.generations,
            r.generations[pr.1]? = some (some pr.2)) := by
  have hne : missingIndicesAux (prompts.map fun p => cacheFn p (BaseLLM.llmStringKey cfg stop)) 0
      ≠ [] := by
    intro h0
    obtain ⟨p, hp, hpn⟩ := hmiss
    have hs := (missingIndicesAux_eq_nil_iff _ 0).mp h0
        (cacheFn p (BaseLLM.llmStringKey cfg stop))
        (List.mem_map_of_mem _ hp)
    rw [hpn] at hs
    simp at hs
  have hmf := missingIndicesAux_map_getD (fun p => cacheFn p (BaseLLM.llmStringKey cfg stop)) prompts
  have hok' : cfg.gen
      ((missingIndicesAux (prompts.map fun p => cacheFn p (BaseLLM.llmStringKey cfg stop)) 0).map
        fun i => prompts.getD i "") stop = .ok results := by
    rw [hmf]; exact hok
  have heq := generate_cached_ok_eq cfg cacheFn prompts stop results hc hne hok'
  have hfill := spliceAll_zip_missing_eq_fillHoles
      (prompts.map fun p => cacheFn p (BaseLLM.llmStringKey cfg stop)) results.generations
  refine ⟨by rw [heq]; simpa using hmf, ?_⟩
  refine ⟨_, by rw [heq], ?_, ?_, ?_⟩
  · show (spliceAll _ _).length = _
    rw [hfill, fillHoles_length]
    simp
  · intro i g hi hg
    show (spliceAll _ _)[i]? = _
    rw [hfill]
    apply fillHoles_get_of_some
    have hpi : prompts[i]? = some (prompts.getD i "") := by
      rw [List.getElem?_eq_getElem hi, List.getD_eq_getElem _ _ hi]
    rw [List.getElem?_map, hpi, Option.map_some', hg]
  · intro pr hpr
    show (spliceAll _ _)[pr.1]? = _
    rw [hfill]
    exact fillHoles_mem_zip _ _ _ hpr

set_option maxRecDepth 4000 in
/-- C1 witness: the spec's three-prompt scenario — prompt 2 cached, prompts
1 and 3 not — where the backend receives exactly the two missing prompts in
order. -/
theorem generate_partial_hits_merge_witness :
    (BaseLLM.generate
        { exampleCfg with
            cache := some fun p _ => if p = "p2" then some [{ text := "hit2" }] else none }
        (.array ["p1", "p2", "p3"]) none).2.backendCalls = [["p1", "p3"]] := by
  have h := (generate_partial_hits_merge
    { exampleCfg with
        cache := some fun p _ => if p = "p2" then some [{ text := "hit2" }] else none }
    (fun p _ => if p = "p2" then some [{ text := "hit2" }] else none)
    ["p1", "p2", "p3"] none
    { generations := [[{ text := "p1!" }], [{ text := "p3!" }]] }
    rfl ⟨"p1", List.mem_cons_self _ _, rfl⟩ rfl rfl).1
  rw [h]
  rfl

/-- C4: with caching enabled, cache updates are performed exactly for the
prompts that missed the lookup — one write per missing prompt under the
original prompt text and the serialized-parameters key — and no write ever
targets a prompt that was a hit. -/
theorem generate_cache_write_per_miss (cfg : LLMConfig ε)
    (cacheFn : String → String → Option GenList)
    (prompts : List String) (stop : Option (List String)) (results : LLMResult)
    (hc : cfg.cache = some cacheFn)
    (hmiss : ∃ p ∈ prompts, cacheFn p (BaseLLM.llmStringKey cfg stop) = none)
    (hok : cfg.gen (prompts.filter fun p => (cacheFn p (BaseLLM.llmStringKey cfg stop)).isNone)
        stop = .ok results)
    (hlen : results.generations.length
        = (prompts.filter fun p => (cacheFn p (BaseLLM.llmStringKey cfg stop)).isNone).length) :
    ((BaseLLM.generate cfg (.array prompts) stop).2.cacheWrites.map fun w => w.1)
        = prompts.filter (fun p => (cacheFn p (BaseLLM.llmStringKey cfg stop)).isNone)
    ∧ ∀ w ∈ (BaseLLM.generate cfg (.array prompts) stop).2.cacheWrites,
        w.2.1 = BaseLLM.llmStringKey cfg stop
        ∧ cacheFn w.1 (BaseLLM.llmStringKey cfg stop) = none := by
  have hne : missingIndicesAux (prompts.map fun p => cacheFn p (BaseLLM.llmStringKey cfg stop)) 0
      ≠ [] := by
    intro h0
    obtain ⟨p, hp, hpn⟩ := hmiss
    have hs := (missingIndicesAux_eq_nil_iff _ 0).mp h0
        (cacheFn p (BaseLLM.llmStringKey cfg stop))
        (List.mem_map_of_mem _ hp)
    rw [hpn] at hs
    simp at hs
  have hmf := missingIndicesAux_map_getD (fun p => cacheFn p (BaseLLM.llmStringKey cfg stop)) prompts
  have hok' : cfg.gen
      ((missingIndicesAux (prompts.map fun p => cacheFn p (BaseLLM.llmStringKey cfg stop)) 0).map
        fun i => prompts.getD i "") stop = .ok results := by
    rw [hmf]; exact hok
  have heq := generate_cached_ok_eq cfg cacheFn prompts stop results hc hne hok'
  have hlm : (missingIndicesAux (prompts.map fun p => cacheFn p (BaseLLM.llmStringKey cfg stop)) 0).length
      = (prompts.filter fun p => (cacheFn p (BaseLLM.llmStringKey cfg stop)).isNone).length := by
    have := congrArg List.length hmf
    simpa using this
  have hle : (missingIndicesAux (prompts.map fun p => cacheFn p (BaseLLM.llmStringKey cfg stop)) 0).length
      ≤ results.generations.length := by
    rw [hlm, hlen]
  constructor
  · rw [heq]
    show (((missingIndicesAux (prompts.map fun p => cacheFn p (BaseLLM.llmStringKey cfg stop)) 0).zip
        results.generations).map
          (fun pr => (prompts.getD pr.1 "", BaseLLM.llmStringKey cfg stop, pr.2))).map (fun w => w.1) = _
    rw [List.map_map]
    have hcomp : ((fun w : String × String × GenList => w.1) ∘
        (fun pr : Nat × GenList => (prompts.getD pr.1 "", BaseLLM.llmStringKey cfg stop, pr.2)))
        = (fun i => prompts.getD i "") ∘ Prod.fst := by
      funext pr
      rfl
    rw [hcomp, ← List.map_map, List.map_fst_zip _ _ hle, hmf]
  · intro w hw
    rw [heq] at hw
    obtain ⟨pr, hpr, rfl⟩ := List.mem_map.mp hw
    obtain ⟨i, g⟩ := pr
    refine ⟨rfl, ?_⟩
    have h1 : i ∈ missingIndicesAux (prompts.map fun p => cacheFn p (BaseLLM.llmStringKey cfg stop)) 0 :=
      (List.of_mem_zip hpr).1
    have h2 : prompts.getD i "" ∈
        prompts.filter (fun p => (cacheFn p (BaseLLM.llmStringKey cfg stop)).isNone) := by
      rw [← hmf]
      exact List.mem_map_of_mem _ h1
    show cacheFn (prompts.getD i "") (BaseLLM.llmStringKey cfg stop) = none
    exact Option.isNone_iff_eq_none.mp (by simpa using List.of_mem_filter h2)

set_option maxRecDepth 4000 in
/-- C4 witness: the three-prompt partial-hit scenario — the two misses are
written back, the hit is not. -/
theorem generate_cache_write_per_miss_witness :
    ((BaseLLM.generate
        { exampleCfg with
            cache := some fun p _ => if p = "p2" then some [{ text := "hit2" }] else none }
        (.array ["p1", "p2", "p3"]) none).2.cacheWrites.map fun w => w.1) = ["p1", "p3"] := by
  have h := (generate_cache_write_per_miss
    { exampleCfg with
        cache := some fun p _ => if p = "p2" then some [{ text := "hit2" }] else none }
    (fun p _ => if p = "p2" then some [{ text := "hit2" }] else none)
    ["p1", "p2", "p3"] none
    { generations := [[{ text := "p1!" }], [{ text := "p3!" }]] }
    rfl ⟨"p1", List.mem_cons_self _ _, rfl⟩ rfl rfl).1
  rw [h]
  rfl

/-- C10: when a cache is configured and at least one prompt misses, the
record `generate` returns is freshly built from the merged generations and
the uncached path's metadata, with no run-correlation field — even though
the uncached path attaches `run` to its own result. -/
theorem generate_cached_result_drops_run (cfg : LLMConfig ε)
    (cacheFn : String → String → Option GenList)
    (prompts : List String) (stop : Option (List String)) (results : LLMResult)
    (hc : cfg.cache = some cacheFn)
    (hmiss : ∃ p ∈ prompts, cacheFn p (BaseLLM.llmStringKey cfg stop) = none)
    (hok : cfg.gen (prompts.filter fun p => (cacheFn p (BaseLLM.llmStringKey cfg stop)).isNone)
        stop = .ok results)
    (hcb : cfg.hasCallbacks = true) :
    (BaseLLM.generateUncached cfg.hasCallbacks cfg.runId cfg.gen
        (prompts.filter fun p => (cacheFn p (BaseLLM.llmStringKey cfg stop)).isNone) stop).1
      = .ok { generations := results.generations, llmOutput := results.llmOutput,
              run := some cfg.runId }
    ∧ ∃ r, (BaseLLM.generate cfg (.array prompts) stop).1 = .ok r
        ∧ r.run = none
        ∧ r.llmOutput = some (results.llmOutput.getD [])
        ∧ r.generations
            = fillHoles (prompts.map fun p => cacheFn p (BaseLLM.llmStringKey cfg stop))
                results.generations := by
  have hne : missingIndicesAux (prompts.map fun p => cacheFn p (BaseLLM.llmStringKey cfg stop)) 0
      ≠ [] := by
    intro h0
    obtain ⟨p, hp, hpn⟩ := hmiss
    have hs := (missingIndicesAux_eq_nil_iff _ 0).mp h0
        (cacheFn p (BaseLLM.llmStringKey cfg stop))
        (List.mem_map_of_mem _ hp)
    rw [hpn] at hs
    simp at hs
  have hmf := missingIndicesAux_map_getD (fun p => cacheFn p (BaseLLM.llmStringKey cfg stop)) prompts
  have hok' : cfg.gen
      ((missingIndicesAux (prompts.map fun p => cacheFn p (BaseLLM.llmStringKey cfg stop)) 0).map
        fun i => prompts.getD i "") stop = .ok results := by
    rw [hmf]; exact hok
  have heq := generate_cached_ok_eq cfg cacheFn prompts stop results hc hne hok'
  have hfill := spliceAll_zip_missing_eq_fillHoles
      (prompts.map fun p => cacheFn p (BaseLLM.llmStringKey cfg stop)) results.generations
  constructor
  · simp [BaseLLM.generateUncached, hok, hcb]
  · exact ⟨_, by rw [heq], rfl, rfl, hfill⟩

set_option maxRecDepth 4000 in
/-- C10 witness: in the partial-hit scenario the returned record carries no
run id even though callbacks are configured. -/
theorem generate_cached_result_drops_run_witness :
    ∃ r, (BaseLLM.generate
        { exampleCfg with
            cache := some fun p _ => if p = "p2" then some [{ text := "hit2" }] else none }
        (.array ["p1", "p2", "p3"]) none).1 = .ok r ∧ r.run = none := by
  obtain ⟨-, r, hr, hrun, -, -⟩ := generate_cached_result_drops_run
    { exampleCfg with
        cache := some fun p _ => if p = "p2" then some [{ text := "hit2" }] else none }
    (fun p _ => if p = "p2" then some [{ text := "hit2" }] else none)
    ["p1", "p2", "p3"] none
    { generations := [[{ text := "p1!" }], [{ text := "p3!" }]] }
    rfl ⟨"p1", List.mem_cons_self _ _, rfl⟩ rfl rfl
  exact ⟨r, hr, hrun⟩

theorem jsTruthy_some_ne {m : String} (h : m ≠ "") : jsTruthy (some m) = true := by
  unfold jsTruthy
  split
  · simp_all
  · simp_all
  · rfl

/-- C8: `deserialize` fails with the unknown-model-type error (whose message
names the offending type) on a record whose type discriminator is absent from
the registration table, and with the model-mismatch error (whose message
names the offending model) on a record whose model-family discriminator is
present but does not match; in both cases the result is an error, so no
instance is constructed. -/
theorem deserialize_unknown_discriminators (data : SerializedRecord) :
    (∀ t : String, (jsTruthy data.modelD = false ∨ data.modelD = some "base_llm") →
        data.typeD = some t → t ∉ llmRegistry →
        BaseLLM.deserialize data
          = .error (.unknownModelType ("Cannot load  LLM with type " ++ t)))
    ∧ (∀ m : String, data.modelD = some m → m ≠ "" → m ≠ "base_llm" →
        BaseLLM.deserialize data
          = .error (.modelMismatch ("Cannot load LLM with model " ++ m))) := by
  constructor
  · intro t hmok ht hnot
    have hcond : ¬ (jsTruthy data.modelD ∧ data.modelD ≠ some "base_llm") := by
      rcases hmok with h | h
      · intro hc
        rw [h] at hc
        exact absurd hc.1 (by simp)
      · intro hc
        exact hc.2 h
    simp only [BaseLLM.deserialize]
    rw [if_neg hcond, ht]
    simp [hnot]
  · intro m hm hne hnb
    have hcond : (jsTruthy data.modelD ∧ data.modelD ≠ some "base_llm") := by
      rw [hm]
      exact ⟨jsTruthy_some_ne hne, by simpa using hnb⟩
    simp only [BaseLLM.deserialize]
    rw [if_pos hcond, hm]
    rfl

/-- C8 witness: an unregistered type discriminator and a mismatched model
discriminator, each rejected with its descriptive message. -/
theorem deserialize_unknown_discriminators_witness :
    BaseLLM.deserialize ⟨some "alpaca", none, []⟩
        = .error (.unknownModelType "Cannot load  LLM with type alpaca")
    ∧ BaseLLM.deserialize ⟨some "openai", some "chat_model", []⟩
        = .error (.modelMismatch "Cannot load LLM with model chat_model") := by
  constructor
  · have h := (deserialize_unknown_discriminators ⟨some "alpaca", none, []⟩).1 "alpaca"
      (Or.inl rfl) rfl (by simp [llmRegistry])
    simpa using h
  · have h := (deserialize_unknown_discriminators ⟨some "openai", some "chat_model", []⟩).2
      "chat_model" rfl (by simp) (by simp)
    simpa using h

theorem charListLt_cons_iff {a b : Char} {as bs : List Char} :
    List.lt (a :: as) (b :: bs) ↔ a < b ∨ (¬ a < b ∧ ¬ b < a ∧ List.lt as bs) := by
  constructor
  · intro h
    cases h with
    | head _ _ h => exact Or.inl h
    | tail h1 h2 h3 => exact Or.inr ⟨h1, h2, h3⟩
  · intro h
    rcases h with h | ⟨h1, h2, h3⟩
    · exact List.lt.head _ _ h
    · exact List.lt.tail h1 h2 h3

theorem charListLt_append_stable :
    ∀ (P A V W : List Char), ¬ P <+: A →
      (List.lt A (P ++ V) ↔ List.lt A (P ++ W)) := by
  intro P
  induction P with
  | nil => intro A V W h; exact absurd List.nil_prefix h
  | cons c P' ih =>
      intro A V W h
      cases A with
      | nil =>
          constructor
          · intro _; exact List.lt.nil _ _
          · intro _; exact List.lt.nil _ _
      | cons a A' =>
          rcases lt_trichotomy a c with hac | heq | hca
          · constructor
            · intro _; exact List.lt.head _ _ hac
            · intro _; exact List.lt.head _ _ hac
          · subst heq
            have h' : ¬ P' <+: A' := by
              intro hp
              exact h (List.cons_prefix_cons.mpr ⟨rfl, hp⟩)
            rw [List.cons_append, List.cons_append, charListLt_cons_iff, charListLt_cons_iff]
            constructor
            · rintro (hlt | ⟨h1, h2, h3⟩)
              · exact absurd hlt (lt_irrefl a)
              · exact Or.inr ⟨h1, h2, (ih A' V W h').mp h3⟩
            · rintro (hlt | ⟨h1, h2, h3⟩)
              · exact absurd hlt (lt_irrefl a)
              · exact Or.inr ⟨h1, h2, (ih A' V W h').mpr h3⟩
          · have hnac : ¬ a < c := not_lt.mpr (le_of_lt hca)
            constructor
            · intro hl
              rw [List.cons_append, charListLt_cons_iff] at hl
              rcases hl with hl | ⟨-, h2, -⟩
              · exact absurd hl hnac
              · exact absurd hca h2
            · intro hl
              rw [List.cons_append, charListLt_cons_iff] at hl
              rcases hl with hl | ⟨-, h2, -⟩
              · exact absurd hl hnac
              · exact absurd hca h2

theorem strLt_iff_listLt (a b : String) : a < b ↔ List.lt a.data b.data := by
  rw [String.lt_iff_toList_lt, List.lt_iff_lex_lt]
  exact Eq.to_iff rfl

theorem strLt_append_stable (a p v w : String) (h : ¬ p.data <+: a.data) :
    (a < p ++ v ↔ a < p ++ w) := by
  rw [strLt_iff_listLt, strLt_iff_listLt, String.data_append, String.data_append]
  exact charListLt_append_stable p.data a.data v.data w.data h

theorem sortStrings_append_singleton (l : List String) (s : String) :
    sortStrings (l ++ [s])
      = ((sortStrings l).filter fun x => decide (x < s))
          ++ s :: ((sortStrings l).filter fun x => !decide (x < s)) := by
  have hsl : List.Sorted (· ≤ ·) (sortStrings l) := List.sorted_insertionSort _ l
  have hperm : (sortStrings (l ++ [s])).Perm
      (((sortStrings l).filter fun x => decide (x < s))
        ++ s :: ((sortStrings l).filter fun x => !decide (x < s))) := by
    refine (List.perm_insertionSort (· ≤ · : String → String → Prop) (l ++ [s])).trans ?_
    refine (List.perm_append_singleton _ _).trans ?_
    refine (((List.perm_insertionSort (· ≤ · : String → String → Prop) l).symm).cons s).trans ?_
    refine ((((List.filter_append_perm (fun x => decide (x < s)) (sortStrings l))).symm).cons s).trans ?_
    exact List.perm_middle.symm
  have hs2 : List.Sorted (· ≤ · : String → String → Prop)
      (((sortStrings l).filter fun x => decide (x < s))
        ++ s :: ((sortStrings l).filter fun x => !decide (x < s))) := by
    show List.Pairwise _ _
    rw [List.pairwise_append]
    refine ⟨List.Sorted.filter _ hsl, ?_, ?_⟩
    · rw [List.pairwise_cons]
      refine ⟨?_, List.Sorted.filter _ hsl⟩
      intro b hb
      have hnb : ¬ b < s := by simpa using (List.of_mem_filter hb)
      exact le_of_not_lt hnb
    · intro a ha b hb
      have halt : a < s := by simpa using (List.of_mem_filter ha)
      rcases List.mem_cons.mp hb with rfl | hb2
      · exact le_of_lt halt
      · have hnb : ¬ b < s := by simpa using (List.of_mem_filter hb2)
        exact le_of_lt (lt_of_lt_of_le halt (le_of_not_lt hnb))
  exact List.eq_of_perm_of_sorted hperm (List.sorted_insertionSort _ _) hs2

theorem strAppend_left_cancel {a b c : String} (h : a ++ b = a ++ c) : b = c := by
  apply String.ext
  have hd := congrArg String.data h
  rw [String.data_append, String.data_append] at hd
  exact List.append_cancel_left hd

theorem strAppend_right_cancel {a b c : String} (h : a ++ c = b ++ c) : a = b := by
  apply String.ext
  have hd := congrArg String.data h
  rw [String.data_append, String.data_append] at hd
  exact List.append_cancel_right hd

theorem joinComma_cons_of_ne_nil (a : String) (rest : List String) (h : rest ≠ []) :
    joinComma (a :: rest) = a ++ "," ++ joinComma rest := by
  cases rest with
  | nil => exact absurd rfl h
  | cons b r => rfl

theorem joinComma_middle_inj :
    ∀ (A B : List String) (s t : String),
      joinComma (A ++ s :: B) = joinComma (A ++ t :: B) → s = t := by
  intro A
  induction A with
  | nil =>
      intro B s t h
      cases B with
      | nil => simpa [joinComma] using h
      | cons b r =>
          rw [List.nil_append, List.nil_append,
            joinComma_cons_of_ne_nil s (b :: r) (by simp),
            joinComma_cons_of_ne_nil t (b :: r) (by simp)] at h
          exact strAppend_right_cancel (strAppend_right_cancel h)
  | cons a A2 ih =>
      intro B s t h
      rw [List.cons_append, List.cons_append,
        joinComma_cons_of_ne_nil a (A2 ++ s :: B) (by simp),
        joinComma_cons_of_ne_nil a (A2 ++ t :: B) (by simp)] at h
      exact ih B s t (strAppend_left_cancel h)

theorem entryStr_stop (v : String) : entryStr ("stop", v) = "stop," ++ v := by
  show "stop" ++ "," ++ v = "stop," ++ v
  rw [show ("stop" : String) ++ "," = "stop," from rfl]

/-- C2 counterexample: the stop lists `["a", "b"]` and `["a,b"]` differ, yet
under the same configuration they produce the same serialized-parameters
cache key, because the key renders the stop list as its comma-join. -/
theorem llmStringKey_stop_collision :
    ((["a", "b"] : List String) ≠ ["a,b"])
    ∧ BaseLLM.llmStringKey exampleCfg (some ["a", "b"])
        = BaseLLM.llmStringKey exampleCfg (some ["a,b"]) := ⟨by decide, rfl⟩

/-- C2 (amended): two calls with identical prompts and identical backend
identifying parameters but different stop lists get different cache keys
whenever the comma-joined renderings of the stop lists differ, provided no
serialized identifying-parameter entry begins with the text `stop,`; stop
lists with equal comma-joins collide. -/
theorem llmStringKey_stop_injective (cfg : LLMConfig ε)
    (stop1 stop2 : Option (List String))
    (hpre : ∀ e ∈ (BaseLLM.serialize cfg).map entryStr, ¬ ("stop,".data <+: e.data))
    (hne : stopValueStr stop1 ≠ stopValueStr stop2) :
    BaseLLM.llmStringKey cfg stop1 ≠ BaseLLM.llmStringKey cfg stop2 := by
  intro hkey
  have hmapj : ∀ v : String,
      ((BaseLLM.serialize cfg ++ [("stop", v)]).map entryStr)
        = (BaseLLM.serialize cfg).map entryStr ++ ["stop," ++ v] := by
    intro v
    rw [List.map_append, List.map_cons, List.map_nil, entryStr_stop]
  have hk : ∀ v : String,
      joinComma (sortStrings ((BaseLLM.serialize cfg ++ [("stop", v)]).map entryStr))
        = joinComma
            ((((sortStrings ((BaseLLM.serialize cfg).map entryStr)).filter
                fun x => decide (x < "stop," ++ v))
              ++ ("stop," ++ v) ::
                ((sortStrings ((BaseLLM.serialize cfg).map entryStr)).filter
                  fun x => !decide (x < "stop," ++ v)))) := by
    intro v
    rw [hmapj v, sortStrings_append_singleton]
  have hstable : ∀ x ∈ sortStrings ((BaseLLM.serialize cfg).map entryStr),
      decide (x < "stop," ++ stopValueStr stop1) = decide (x < "stop," ++ stopValueStr stop2) := by
    intro x hx
    have hxE : x ∈ (BaseLLM.serialize cfg).map entryStr :=
      (List.perm_insertionSort _ _).mem_iff.mp hx
    exact decide_eq_decide.mpr
      (strLt_append_stable x "stop," (stopValueStr stop1) (stopValueStr stop2) (hpre x hxE))
  have hfpos : ((sortStrings ((BaseLLM.serialize cfg).map entryStr)).filter
        fun x => decide (x < "stop," ++ stopValueStr stop1))
      = ((sortStrings ((BaseLLM.serialize cfg).map entryStr)).filter
        fun x => decide (x < "stop," ++ stopValueStr stop2)) :=
    List.filter_congr hstable
  have hfneg : ((sortStrings ((BaseLLM.serialize cfg).map entryStr)).filter
        fun x => !decide (x < "stop," ++ stopValueStr stop1))
      = ((sortStrings ((BaseLLM.serialize cfg).map entryStr)).filter
        fun x => !decide (x < "stop," ++ stopValueStr stop2)) :=
    List.filter_congr (fun x hx => by rw [hstable x hx])
  rw [BaseLLM.llmStringKey, BaseLLM.llmStringKey, hk, hk, hfpos, hfneg] at hkey
  have hS := joinComma_middle_inj _ _ _ _ hkey
  exact hne (strAppend_left_cancel hS)

/-- C2 (amended) witness: under the example configuration the stop lists
`["x"]` and `["y"]` have different comma-joins and get different keys. -/
theorem llmStringKey_stop_injective_witness :
    BaseLLM.llmStringKey exampleCfg (some ["x"]) ≠ BaseLLM.llmStringKey exampleCfg (some ["y"]) :=
  llmStringKey_stop_injective exampleCfg (some ["x"]) (some ["y"])
    (by intro e he; fin_cases he <;> decide) (by decide)
